import Mathlib

/-
Verification of the Mython interpreter front-end (lexer.h / lexer.cpp) and
statement evaluator (statement.cpp).

The lexer is embedded as a pure function over the list of physical lines of
the input (the source reads the stream line by line with getline).  The
evaluator is embedded as a fuel-indexed interpreter over an explicit
closure / heap / output state; the C++ exception channels (runtime errors and
the ast::Exception return signal) become explicit result constructors, and a
null-pointer dereference (undefined behaviour in the source) becomes the
distinguished result `crash`.
-/

set_option maxRecDepth 8000
set_option maxHeartbeats 1000000

deriving instance DecidableEq for Except

namespace parse

/-- Tokens of the Mython lexer: the variant `parse::TokenBase` from lexer.h. -/
inductive Tok where
  | number (n : Int)
  | id (s : String)
  | char (c : Char)
  | strTok (s : String)
  | classT
  | returnT
  | ifT
  | elseT
  | defT
  | newline
  | printT
  | indent
  | dedent
  | andT
  | orT
  | notT
  | eqT
  | notEqT
  | lessOrEqT
  | greaterOrEqT
  | noneT
  | trueT
  | falseT
  | eof
deriving DecidableEq

/-- Lexer failures (`parse::LexerError`).  The exact message strings carried by
the C++ exception are irrelevant to the claims; only the failure kind is kept.
`fuelOut` is an artefact of the fuel-indexed embedding and is unreachable for
the fuel amounts the driver `scanLine` supplies. -/
inductive LErr where
  | invalidIndents
  | failedString
  | failedRead
  | numOverflow
  | fuelOut
deriving DecidableEq

/-- The delimiter character set `delimiter_` from lexer.h. -/
def delimiterCh (c : Char) : Bool :=
  c == ':' || c == '(' || c == ')' || c == '.' || c == ',' || c == '@' ||
  c == '%' || c == '$' || c == '^' || c == '&' || c == ';' || c == '\x7b' ||
  c == '\x7d' || c == '[' || c == ']' || c == '?' || c == '#'

/-- The logic-operator starter set `logic_operations_` from lexer.h. -/
def logicCh (c : Char) : Bool :=
  c == '=' || c == '<' || c == '>' || c == '!'

/-- The arithmetic-operator set `ariphmetic_operations_` from lexer.h. -/
def arithCh (c : Char) : Bool :=
  c == '+' || c == '-' || c == '*' || c == '/'

/-- C `isspace` on the characters that can occur inside a getline line. -/
def isSpaceCh (c : Char) : Bool :=
  c == ' ' || c == '\t' || c == '\n' || c == '\x0b' || c == '\x0c' || c == '\r'

/-- `Lexer::IsIdentifiersOrNumber`: `isalnum(c) || c == '_'` (ASCII). -/
def isIdentCh (c : Char) : Bool :=
  c.isAlphanum || c == '_'

/-- `Lexer::IsString`: a double or single quote. -/
def isQuoteCh (c : Char) : Bool :=
  c == '"' || c == Char.ofNat 39

/-- The keyword table `key_words_` from lexer.h, restricted to the
identifier-shaped keys (the two-character operator keys are handled by
`twoCharTok`). -/
def keyWords : List (String × Tok) :=
  [("class", .classT), ("return", .returnT), ("if", .ifT), ("else", .elseT),
   ("def", .defT), ("print", .printT), ("and", .andT), ("or", .orT),
   ("not", .notT), ("None", .noneT), ("True", .trueT), ("False", .falseT)]

/-- Lookup in `key_words_` (`key_words_.count(parsed) == 1` followed by
`key_words_.at(parsed)` in the source). -/
def keywordTok (s : String) : Option Tok :=
  (keyWords.find? (fun p => p.1 == s)).map (·.2)

/-- `Lexer::ReadIdentifiersOrNumber` on a non-digit start: the parsed run is a
keyword token when it is a key of `key_words_`, otherwise an Id token. -/
def kwOr (run : String) : Tok :=
  match keywordTok run with
  | some t => t
  | none => .id run

/-- The two-character operator tokens looked up in `key_words_` when a
logic-operator starter is followed by '=' (all four combinations are keys). -/
def twoCharTok (c : Char) : Tok :=
  if c == '=' then .eqT
  else if c == '!' then .notEqT
  else if c == '<' then .lessOrEqT
  else .greaterOrEqT

/-- Numeric value of a digit run, as accumulated by `Lexer::ReadNumber`
before the `stoi` conversion. -/
def digitsVal (l : List Char) : Nat :=
  l.foldl (fun n c => n * 10 + (c.toNat - 48)) 0

/-- Escape translation inside `Lexer::ReadStrings`: the recognized escapes;
any other escape character is a lexer error ("Failed string"). -/
def escCh (e : Char) : Option Char :=
  if e == '"' then some '"'
  else if e == 'n' then some '\n'
  else if e == 'r' then some '\r'
  else if e == Char.ofNat 39 then some (Char.ofNat 39)
  else if e == 't' then some '\t'
  else if e == '\\' then some '\\'
  else none

/-- `Lexer::ReadStrings`: scan a string literal terminated by the opening
quote `q`; running off the end of the line is a lexer error.  The fuel is an
upper bound on the characters consumed; `scanBody` always supplies enough. -/
def readStrBody (q : Char) : Nat → List Char → String → Except LErr (String × List Char)
  | 0, _, _ => .error .fuelOut
  | _ + 1, [], _ => .error .failedRead
  | fuel + 1, ch :: rest, acc =>
    if ch == q then .ok (acc, rest)
    else if ch == '\\' then
      match rest with
      | [] => .error .failedString
      | e :: rest2 =>
        match escCh e with
        | some ec => readStrBody q fuel rest2 (acc.push ec)
        | none => .error .failedString
    else readStrBody q fuel rest (acc.push ch)

/-- The per-line body scan of `Lexer::ReadToken` (the inner `while (ss.get(c))`
loop): '#' ends the line, whitespace is skipped, punctuation / numbers /
identifiers / strings are tokenized, and any other character is silently
skipped.  Each step consumes at least one character, so fuel
`length + 1` is always sufficient. -/
def scanBody : Nat → List Char → Except LErr (List Tok)
  | 0, _ => .error .fuelOut
  | _ + 1, [] => .ok []
  | fuel + 1, c :: rest =>
    if c == '#' then .ok []
    else if isSpaceCh c then scanBody fuel rest
    else if delimiterCh c || arithCh c then
      match scanBody fuel rest with
      | .ok ts => .ok (.char c :: ts)
      | .error e => .error e
    else if logicCh c then
      if rest.head? = some '=' then
        match scanBody fuel rest.tail with
        | .ok ts => .ok (twoCharTok c :: ts)
        | .error e => .error e
      else
        match scanBody fuel rest with
        | .ok ts => .ok (.char c :: ts)
        | .error e => .error e
    else if c.isDigit then
      if digitsVal (c :: rest.takeWhile Char.isDigit) > 2147483647 then
        .error .numOverflow
      else
        match scanBody fuel (rest.dropWhile Char.isDigit) with
        | .ok ts =>
          .ok (.number (Int.ofNat (digitsVal (c :: rest.takeWhile Char.isDigit))) :: ts)
        | .error e => .error e
    else if isIdentCh c then
      match scanBody fuel (rest.dropWhile isIdentCh) with
      | .ok ts => .ok (kwOr (String.mk (c :: rest.takeWhile isIdentCh)) :: ts)
      | .error e => .error e
    else if isQuoteCh c then
      match readStrBody c fuel rest "" with
      | .ok (s, rest2) =>
        match scanBody fuel rest2 with
        | .ok ts => .ok (.strTok s :: ts)
        | .error e => .error e
      | .error e => .error e
    else scanBody fuel rest

/-- `Lexer::IsEmptyLine`: the line is empty, consists only of spaces, or its
first non-space character is '#'. -/
def isEmptyLine (line : String) : Bool :=
  match line.toList.dropWhile (· == ' ') with
  | [] => true
  | c :: _ => c == '#'

/-- `Lexer::ReadIndents`: the indent / dedent tokens emitted when moving from
level `cur` to level `target`, together with the updated level. -/
def indentToks (cur target : Nat) : List Tok :=
  if target > cur then List.replicate (target - cur) .indent
  else List.replicate (cur - target) .dedent

/-- The per-line part of `Lexer::ReadToken`: skip blank lines; otherwise
measure the leading spaces (odd counts are the "Invalid indents" error), emit
the indent adjustment, scan the body, and terminate with one Newline.
Returns the emitted tokens and the new indent level. -/
def scanLine (line : String) (cur : Nat) : Except LErr (List Tok × Nat) :=
  if isEmptyLine line then .ok ([], cur)
  else
    let cs := line.toList
    let sp := (cs.takeWhile (· == ' ')).length
    if sp % 2 ≠ 0 then .error .invalidIndents
    else
      match scanBody (cs.length + 1) (cs.drop sp) with
      | .error e => .error e
      | .ok body => .ok (indentToks cur (sp / 2) ++ body ++ [.newline], sp / 2)

/-- The getline loop of `Lexer::ReadToken`: tokenize every line, then emit the
trailing dedents that restore level 0 and the final Eof. -/
def lexLines : List String → Nat → Except LErr (List Tok)
  | [], cur => .ok (List.replicate cur .dedent ++ [.eof])
  | line :: rest, cur =>
    match scanLine line cur with
    | .error e => .error e
    | .ok (toks, cur2) =>
      match lexLines rest cur2 with
      | .error e => .error e
      | .ok ts => .ok (toks ++ ts)

/-- `Lexer::ReadToken` on a whole input, starting at indent level 0: the full
token stream the constructor pushes into the deque. -/
def tokenize (lines : List String) : Except LErr (List Tok) :=
  lexLines lines 0

/-- Number of occurrences of a token in a stream. -/
def nTok (t : Tok) : List Tok → Nat
  | [] => 0
  | x :: xs => (if x = t then 1 else 0) + nTok t xs

/-- Last element of a token stream. -/
def lastTok : List Tok → Option Tok
  | [] => none
  | [x] => some x
  | _ :: y :: xs => lastTok (y :: xs)

/-- Tokens that the line-body scan may emit: everything except the synthetic
Newline / Indent / Dedent / Eof tokens. -/
def isBodyTok : Tok → Bool
  | .newline => false
  | .indent => false
  | .dedent => false
  | .eof => false
  | _ => true

end parse

namespace ast

/-- Heap address of a shared class instance (an `ObjectHolder` that holds a
`runtime::ClassInstance` is modelled as a reference into an explicit heap, so
that mutation through one holder is visible through all). -/
abbrev Addr := Nat

/-- The value held by a `runtime::ObjectHolder`: empty (`None`) or one of the
runtime object kinds used by statement.cpp. -/
inductive Value where
  | none
  | num (n : Int)
  | str (s : String)
  | bool (b : Bool)
  | ref (a : Addr)
deriving DecidableEq

/-- A `runtime::ClassInstance`: its class name and mutable field map. -/
structure Inst where
  cls : String
  fields : List (String × Value)
deriving DecidableEq

/-- The mutable evaluation state threaded through `Execute`: the heap of class
instances and the text written so far to the context's output stream (the
stream is modelled as always valid, so `Print`'s `if (output)` test passes). -/
structure St where
  heap : List Inst
  out : String
deriving DecidableEq

/-- `runtime::Closure`: the mutable name-to-value environment. -/
abbrev Closure := List (String × Value)

/-- Lookup in a string-keyed map (`closure.count`/`closure.at`, `Fields().at`). -/
def fGet (fs : List (String × Value)) (x : String) : Option Value :=
  match fs with
  | [] => Option.none
  | (k, v) :: rest => if k = x then some v else fGet rest x

/-- Update-or-insert in a string-keyed map (`closure[var] = v`,
`Fields()[name] = v`). -/
def fSet (fs : List (String × Value)) (x : String) (v : Value) : List (String × Value) :=
  match fs with
  | [] => [(x, v)]
  | (k, w) :: rest => if k = x then (k, v) :: rest else (k, w) :: fSet rest x v

/-- Result of executing a statement. `ok` is a normal `ObjectHolder` result;
`err` is a thrown `std::runtime_error`-like exception carrying its message
(`std::out_of_range` from `map::at` is folded into this error channel);
`signal` is the thrown `ast::Exception` return signal carrying a value;
`crash` marks a null-pointer dereference (undefined behaviour in the C++
source); `timeout` is an artefact of the fuel-indexed embedding. -/
inductive Res where
  | ok (v : Value)
  | err (m : String)
  | signal (v : Value)
  | crash
  | timeout
deriving DecidableEq

/-- The field-path walk of `VariableValue::Execute` (the `accumulate` over
`dotted_ids_`): each step does `parent.TryAs<ClassInstance>()->Fields().at(name)`.
A missing field makes `map::at` throw (an error); a non-instance parent makes
`TryAs` return null and the arrow dereference is undefined behaviour (`crash`). -/
def chain (st : St) : Value → List String → Res
  | v, [] => .ok v
  | .ref a, x :: xs =>
    match st.heap[a]? with
    | some inst =>
      match fGet inst.fields x with
      | some v => chain st v xs
      | Option.none => .err "map::at"
    | Option.none => .crash
  | _, _ :: _ => .crash

/-- Modelled from the spec (§4.2 Truthiness): the runtime's `IsTrue`, which is
outside the given sources — false for `Bool(false)`, `Number(0)`, `String("")`
and the empty value, true otherwise. -/
def isTrue : Value → Bool
  | .none => false
  | .num n => n != 0
  | .str s => s != ""
  | .bool b => b
  | .ref _ => true

/-- Modelled from the spec: `Object::Print` of the runtime object library
(outside the given sources) — a number prints in decimal, a string prints its
text, a Bool prints True/False; the rendering of a class instance is not
prescribed by the given sources and is abstracted as a fixed function of the
reference. -/
def objRender : Value → String
  | .none => "None"
  | .num n => toString n
  | .str s => s
  | .bool b => if b then "True" else "False"
  | .ref a => "<ClassInstance " ++ toString a ++ ">"

/-- AST statement nodes executed by statement.cpp.  `lit` stands for the
literal nodes (external to statement.cpp; modelled from the spec: they return
the corresponding value).  `varValue` carries the `dotted_ids_` list of
`VariableValue` (its constructors guarantee the list is non-empty; an empty
list is modelled as `crash` since `front()` on an empty vector is undefined). -/
inductive Stmt where
  | lit (v : Value)
  | varValue (ids : List String)
  | assign (x : String) (rv : Stmt)
  | fieldAssign (path : List String) (f : String) (rv : Stmt)
  | printStmt (args : List Stmt)
  | stringify (arg : Stmt)
  | methodCall (obj : Stmt) (m : String) (args : List Stmt)
  | divStmt (lhs rhs : Stmt)
  | compound (ss : List Stmt)
  | ret (e : Stmt)
  | ifElse (cond : Stmt) (thenB : Option Stmt) (elseB : Option Stmt)
  | methodBody (b : Stmt)

/-- A method stored in a `runtime::Class`: name, formal parameters, body. -/
structure Method where
  mname : String
  formals : List String
  body : Stmt

/-- A `runtime::Class`: its name and method table (single class, no parent
chain is needed by the claims). -/
structure ClassDef where
  cname : String
  methods : List Method

/-- Modelled from the spec: the runtime's method lookup
`ClassInstance::HasMethod(name, arity)` — a method of the instance's class
with the given name whose formal-parameter count equals the arity. -/
def findMethod (Γ : List ClassDef) (cls m : String) (arity : Nat) : Option Method :=
  match Γ.find? (fun cd => cd.cname == cls) with
  | some cd => cd.methods.find? (fun me => me.mname == m && me.formals.length == arity)
  | Option.none => Option.none

/-- Modelled from the spec: the fresh closure `ClassInstance::Call` builds —
`self` bound to the receiver, formals bound to the actual arguments. -/
def mkCallClosure (a : Addr) (formals : List String) (args : List Value) : Closure :=
  ("self", Value.ref a) :: formals.zip args

/-- `Stmt` is a `Return` node (`dynamic_cast<Return*>` in `Compound::Execute`). -/
def isRetS : Stmt → Bool
  | .ret _ => true
  | _ => false

/-- `Stmt` is an `IfElse` node (`dynamic_cast<IfElse*>`). -/
def isIfElseS : Stmt → Bool
  | .ifElse _ _ _ => true
  | _ => false

/-- `Stmt` is a `MethodCall` node (`dynamic_cast<MethodCall*>`). -/
def isMethodCallS : Stmt → Bool
  | .methodCall _ _ _ => true
  | _ => false

/-- The statement loop of `Compound::Execute`: a Return statement's execution
is returned directly (it always throws); an IfElse or MethodCall whose result
is non-empty stops the loop and is propagated; every other normal result is
discarded; after all statements the result is `None`.  A thrown exception
(err / signal / crash) always stops the loop. -/
def execComp (ex : Stmt → Closure → St → Closure × St × Res) :
    List Stmt → Closure → St → Closure × St × Res
  | [], c, st => (c, st, .ok .none)
  | s :: rest, c, st =>
    if isRetS s then ex s c st
    else if isIfElseS s || isMethodCallS s then
      match ex s c st with
      | (c2, st2, .ok v) =>
        if v = .none then execComp ex rest c2 st2 else (c2, st2, .ok v)
      | r => r
    else
      match ex s c st with
      | (c2, st2, .ok _) => execComp ex rest c2 st2
      | r => r

/-- The argument loop of `MethodCall::Execute` (and `NewInstance`): evaluate
each argument left-to-right, collecting the values; a thrown exception stops
the loop and is propagated. -/
def execArgs (ex : Stmt → Closure → St → Closure × St × Res) :
    List Stmt → Closure → St → Closure × St × (Except Res (List Value))
  | [], c, st => (c, st, .ok [])
  | a :: rest, c, st =>
    match ex a c st with
    | (c2, st2, .ok v) =>
      match execArgs ex rest c2 st2 with
      | (c3, st3, .ok vs) => (c3, st3, .ok (v :: vs))
      | r => r
    | (c2, st2, r) => (c2, st2, .error r)

/-- The output loop of `Print::Execute`: before every argument except the
first a single space is written, then the argument is evaluated and its
rendering (or "None" for an empty value) is written; after the loop a newline
is written and the result is `None`.  A thrown exception escapes before the
newline is written. -/
def execPrint (ex : Stmt → Closure → St → Closure × St × Res) :
    List Stmt → Bool → Closure → St → Closure × St × Res
  | [], _, c, st => (c, { st with out := st.out ++ "\n" }, .ok .none)
  | a :: rest, first, c, st =>
    let st0 := if first then st else { st with out := st.out ++ " " }
    match ex a c st0 with
    | (c2, st2, .ok v) =>
      execPrint ex rest false c2
        { st2 with out := st2.out ++ (if v = .none then "None" else objRender v) }
    | r => r

/-- The statement evaluator: `Execute(closure, context)` of every node in
statement.cpp, with `Γ` the class table of the program.  The fuel only bounds
the recursion depth; every theorem either supplies enough fuel or holds for
all fuel amounts. -/
def exec (Γ : List ClassDef) : Nat → Stmt → Closure → St → Closure × St × Res
  | 0, _, c, st => (c, st, .timeout)
  | _ + 1, .lit v, c, st => (c, st, .ok v)
  | _ + 1, .varValue [], c, st => (c, st, .crash)
  | _ + 1, .varValue (x :: xs), c, st =>
    match fGet c x with
    | Option.none => (c, st, .err ("unknown variable " ++ x))
    | some v => (c, st, chain st v xs)
  | fuel + 1, .assign x rv, c, st =>
    match exec Γ fuel rv c st with
    | (c2, st2, .ok v) => (fSet c2 x v, st2, .ok v)
    | r => r
  | fuel + 1, .fieldAssign path f rv, c, st =>
    match exec Γ fuel (.varValue path) c st with
    | (c1, st1, .ok (.ref a)) =>
      match st1.heap[a]? with
      | some inst =>
        let inst1 :=
          if (fGet inst.fields f).isSome then inst
          else { inst with fields := inst.fields ++ [(f, Value.none)] }
        let st2 := { st1 with heap := st1.heap.set a inst1 }
        match exec Γ fuel rv c1 st2 with
        | (c2, st3, .ok w) =>
          match st3.heap[a]? with
          | some inst2 =>
            (c2, { st3 with heap := st3.heap.set a { inst2 with fields := fSet inst2.fields f w } }, .ok w)
          | Option.none => (c2, st3, .crash)
        | r => r
      | Option.none => (c1, st1, .crash)
    | (c1, st1, .ok _) => (c1, st1, .crash)
    | r => r
  | fuel + 1, .printStmt args, c, st => execPrint (exec Γ fuel) args true c st
  | fuel + 1, .stringify a, c, st =>
    match exec Γ fuel a c st with
    | (c2, st2, .ok Value.none) => (c2, st2, .ok (.str "None"))
    | (c2, st2, .ok v) => (c2, st2, .ok (.str (objRender v)))
    | r => r
  | fuel + 1, .methodCall obj m args, c, st =>
    match execArgs (exec Γ fuel) args c st with
    | (c1, st1, .ok vs) =>
      match exec Γ fuel obj c1 st1 with
      | (c2, st2, .ok (.ref a)) =>
        match st2.heap[a]? with
        | some inst =>
          match findMethod Γ inst.cls m vs.length with
          | some meth =>
            match exec Γ fuel meth.body (mkCallClosure a meth.formals vs) st2 with
            | (_, st3, r3) => (c2, st3, r3)
          | Option.none => (c2, st2, .err ("Bad Method call: " ++ m))
        | Option.none => (c2, st2, .crash)
      | (c2, st2, .ok _) => (c2, st2, .err ("Bad Method call: " ++ m))
      | r => r
    | (c1, st1, .error r) => (c1, st1, r)
  | fuel + 1, .divStmt lhs rhs, c, st =>
    match exec Γ fuel lhs c st with
    | (c1, st1, .ok lv) =>
      match exec Γ fuel rhs c1 st1 with
      | (c2, st2, .ok rv) =>
        match lv, rv with
        | .num a, .num b =>
          -- runtime::Number holds a 32-bit int: a quotient outside its range
          -- (only -2^31 / -1 for representable operands) is undefined
          -- behaviour in the C++ division, modelled as crash.
          if b = 0 then (c2, st2, .err "Zero Division!")
          else if Int.tdiv a b < -2147483648 ∨ 2147483647 < Int.tdiv a b then
            (c2, st2, .crash)
          else (c2, st2, .ok (.num (Int.tdiv a b)))
        | .ref a, rv2 =>
          match st2.heap[a]? with
          | some inst =>
            match findMethod Γ inst.cls "__div__" 1 with
            | some meth =>
              match exec Γ fuel meth.body (mkCallClosure a meth.formals [rv2]) st2 with
              | (_, st3, r3) => (c2, st3, r3)
            | Option.none => (c2, st2, .err "Bad Division!")
          | Option.none => (c2, st2, .crash)
        | _, _ => (c2, st2, .err "Bad Division!")
      | r2 => r2
    | r1 => r1
  | fuel + 1, .compound ss, c, st => execComp (exec Γ fuel) ss c st
  | fuel + 1, .ret e, c, st =>
    match exec Γ fuel e c st with
    | (c2, st2, .ok v) => (c2, st2, .signal v)
    | r => r
  | fuel + 1, .ifElse cond tb eb, c, st =>
    match exec Γ fuel cond c st with
    | (c2, st2, .ok Value.none) =>
      match eb with
      | some e => exec Γ fuel e c2 st2
      | Option.none => (c2, st2, .ok .none)
    | (c2, st2, .ok v) =>
      if isTrue v then
        match tb with
        | some t => exec Γ fuel t c2 st2
        | Option.none => (c2, st2, .ok .none)
      else
        match eb with
        | some e => exec Γ fuel e c2 st2
        | Option.none => (c2, st2, .ok .none)
    | r => r
  | fuel + 1, .methodBody b, c, st =>
    match exec Γ fuel (.compound [b]) c st with
    | (c2, st2, .signal v) => (c2, st2, .ok v)
    | r => r

/-- The execution order claimed by the specification for `MethodCall::Execute`
(receiver first, then the arguments), written from the spec's words so that it
can be compared with `exec` on `Stmt.methodCall`, whose source evaluates the
arguments first. -/
def methodCallSpecOrder (Γ : List ClassDef) (fuel : Nat) (obj : Stmt) (m : String)
    (args : List Stmt) (c : Closure) (st : St) : Closure × St × Res :=
  match exec Γ fuel obj c st with
  | (c1, st1, .ok (.ref a)) =>
    match st1.heap[a]? with
    | some inst =>
      match execArgs (exec Γ fuel) args c1 st1 with
      | (c2, st2, .ok vs) =>
        match findMethod Γ inst.cls m vs.length with
        | some meth =>
          match exec Γ fuel meth.body (mkCallClosure a meth.formals vs) st2 with
          | (_, st3, r3) => (c2, st3, r3)
        | Option.none => (c2, st2, .err ("Bad Method call: " ++ m))
      | (c2, st2, .error r) => (c2, st2, r)
    | Option.none => (c1, st1, .crash)
  | (c1, st1, .ok _) => (c1, st1, .err ("Bad Method call: " ++ m))
  | r => r

/-- The method body of scenario 5 of the spec (return through nested blocks):
if cond: (if other: return 7); return 8; else fall through to return 9. -/
def scen5 : Stmt :=
  .compound
    [ .ifElse (.varValue ["cond"])
        (some (.compound
          [ .ifElse (.varValue ["other"])
              (some (.compound [.ret (.lit (.num 7))])) Option.none,
            .ret (.lit (.num 8)) ]))
        Option.none,
      .ret (.lit (.num 9)) ]

end ast

namespace parse

theorem nTok_append (t : Tok) (a b : List Tok) :
    nTok t (a ++ b) = nTok t a + nTok t b := by
  induction a with
  | nil => simp [nTok]
  | cons x xs ih => simp [nTok, ih]; omega

theorem nTok_replicate (t u : Tok) (k : Nat) :
    nTok t (List.replicate k u) = if u = t then k else 0 := by
  induction k with
  | zero => simp [nTok]
  | succ n ih => simp [List.replicate, nTok, ih]; split <;> omega

theorem nTok_eq_zero (t : Tok) (l : List Tok) (h : ∀ x ∈ l, x ≠ t) :
    nTok t l = 0 := by
  induction l with
  | nil => simp [nTok]
  | cons x xs ih =>
    have hx : x ≠ t := h x (by simp)
    simp [nTok, hx]
    exact ih (fun y hy => h y (by simp [hy]))

theorem lastTok_cons (x : Tok) (l : List Tok) (h : l ≠ []) :
    lastTok (x :: l) = lastTok l := by
  cases l with
  | nil => exact absurd rfl h
  | cons y ys => rfl

theorem lastTok_append (a b : List Tok) (h : b ≠ []) :
    lastTok (a ++ b) = lastTok b := by
  induction a with
  | nil => rfl
  | cons x xs ih =>
    have hne : xs ++ b ≠ [] := by
      intro hc
      rcases List.append_eq_nil.mp hc with ⟨_, h2⟩
      exact h h2
    rw [List.cons_append, lastTok_cons x (xs ++ b) hne, ih]

theorem lastTok_concat (l : List Tok) (x : Tok) :
    lastTok (l ++ [x]) = some x := by
  rw [lastTok_append l [x] (by simp)]; rfl

theorem isBodyTok_ne (t : Tok) (h : isBodyTok t = true) :
    t ≠ .newline ∧ t ≠ .indent ∧ t ≠ .dedent ∧ t ≠ .eof := by
  cases t <;> simp_all [isBodyTok]

theorem keywordTok_body (s : String) (t : Tok) (h : keywordTok s = some t) :
    isBodyTok t = true := by
  unfold keywordTok at h
  cases hf : keyWords.find? (fun p => p.1 == s) with
  | none => rw [hf] at h; exact Option.noConfusion h
  | some p =>
    rw [hf] at h
    injection h with h
    have hmem := List.mem_of_find?_eq_some hf
    subst h
    simp only [keyWords, List.mem_cons, List.not_mem_nil, or_false] at hmem
    rcases hmem with rfl | rfl | rfl | rfl | rfl | rfl | rfl | rfl | rfl | rfl | rfl | rfl
    all_goals rfl

theorem kwOr_body (run : String) : isBodyTok (kwOr run) = true := by
  unfold kwOr
  cases hk : keywordTok run with
  | none => rfl
  | some t => exact keywordTok_body run t hk

theorem twoCharTok_body (c : Char) : isBodyTok (twoCharTok c) = true := by
  unfold twoCharTok
  repeat' split
  all_goals rfl

theorem scanBody_mem (fuel : Nat) : ∀ l ts, scanBody fuel l = .ok ts →
    ∀ t ∈ ts, isBodyTok t = true := by
  induction fuel with
  | zero => intro l ts h; simp [scanBody] at h
  | succ f ih =>
    intro l ts h
    cases l with
    | nil =>
      simp only [scanBody, Except.ok.injEq] at h
      subst h; intro t ht; simp at ht
    | cons c rest =>
      simp only [scanBody] at h
      by_cases h1 : (c == '#') = true
      · rw [if_pos h1] at h
        injection h with h; subst h
        intro t ht; exact absurd ht (List.not_mem_nil t)
      · rw [if_neg h1] at h
        by_cases h2 : isSpaceCh c = true
        · rw [if_pos h2] at h
          exact ih _ _ h
        · rw [if_neg h2] at h
          by_cases h3 : (delimiterCh c || arithCh c) = true
          · rw [if_pos h3] at h
            cases hsb : scanBody f rest with
            | error e => rw [hsb] at h; exact Except.noConfusion h
            | ok ts2 =>
              rw [hsb] at h; injection h with h; subst h
              intro t ht
              rcases List.mem_cons.mp ht with rfl | hm
              · rfl
              · exact ih _ _ hsb t hm
          · rw [if_neg h3] at h
            by_cases h4 : logicCh c = true
            · rw [if_pos h4] at h
              by_cases h5 : rest.head? = some '='
              · rw [if_pos h5] at h
                cases hsb : scanBody f rest.tail with
                | error e => rw [hsb] at h; exact Except.noConfusion h
                | ok ts2 =>
                  rw [hsb] at h; injection h with h; subst h
                  intro t ht
                  rcases List.mem_cons.mp ht with rfl | hm
                  · exact twoCharTok_body c
                  · exact ih _ _ hsb t hm
              · rw [if_neg h5] at h
                cases hsb : scanBody f rest with
                | error e => rw [hsb] at h; exact Except.noConfusion h
                | ok ts2 =>
                  rw [hsb] at h; injection h with h; subst h
                  intro t ht
                  rcases List.mem_cons.mp ht with rfl | hm
                  · rfl
                  · exact ih _ _ hsb t hm
            · rw [if_neg h4] at h
              by_cases h6 : c.isDigit = true
              · rw [if_pos h6] at h
                by_cases h7 : digitsVal (c :: rest.takeWhile Char.isDigit) > 2147483647
                · rw [if_pos h7] at h; exact Except.noConfusion h
                · rw [if_neg h7] at h
                  cases hsb : scanBody f (rest.dropWhile Char.isDigit) with
                  | error e => rw [hsb] at h; exact Except.noConfusion h
                  | ok ts2 =>
                    rw [hsb] at h; injection h with h; subst h
                    intro t ht
                    rcases List.mem_cons.mp ht with rfl | hm
                    · rfl
                    · exact ih _ _ hsb t hm
              · rw [if_neg h6] at h
                by_cases h8 : isIdentCh c = true
                · rw [if_pos h8] at h
                  cases hsb : scanBody f (rest.dropWhile isIdentCh) with
                  | error e => rw [hsb] at h; exact Except.noConfusion h
                  | ok ts2 =>
                    rw [hsb] at h; injection h with h; subst h
                    intro t ht
                    rcases List.mem_cons.mp ht with rfl | hm
                    · exact kwOr_body _
                    · exact ih _ _ hsb t hm
                · rw [if_neg h8] at h
                  by_cases h9 : isQuoteCh c = true
                  · rw [if_pos h9] at h
                    cases hrs : readStrBody c f rest "" with
                    | error e => rw [hrs] at h; exact Except.noConfusion h
                    | ok p =>
                      obtain ⟨s, rest2⟩ := p
                      simp only [hrs] at h
                      cases hsb : scanBody f rest2 with
                      | error e => rw [hsb] at h; exact Except.noConfusion h
                      | ok ts2 =>
                        rw [hsb] at h; injection h with h; subst h
                        intro t ht
                        rcases List.mem_cons.mp ht with rfl | hm
                        · rfl
                        · exact ih _ _ hsb t hm
                  · rw [if_neg h9] at h
                    exact ih _ _ h

theorem indentToks_counts (cur t : Nat) :
    (nTok .dedent (indentToks cur t) : Int) - nTok .indent (indentToks cur t)
      = (cur : Int) - t ∧
    nTok .newline (indentToks cur t) = 0 ∧ nTok .eof (indentToks cur t) = 0 := by
  unfold indentToks
  split
  · simp [nTok_replicate]; omega
  · simp [nTok_replicate]; omega

theorem scanLine_struct (line : String) (cur : Nat) (toks : List Tok) (cur2 : Nat)
    (h : scanLine line cur = .ok (toks, cur2)) :
    (nTok .dedent toks : Int) - nTok .indent toks = (cur : Int) - cur2 ∧
    nTok .eof toks = 0 ∧
    (isEmptyLine line = true → toks = [] ∧ cur2 = cur) ∧
    (isEmptyLine line = false → nTok .newline toks = 1 ∧ lastTok toks = some .newline) := by
  unfold scanLine at h
  by_cases he : isEmptyLine line
  · simp only [he, if_true, Except.ok.injEq, Prod.mk.injEq] at h
    obtain ⟨h1, h2⟩ := h
    subst h1; subst h2
    refine ⟨by simp [nTok], by simp [nTok], fun _ => ⟨rfl, rfl⟩, fun hc => ?_⟩
    rw [he] at hc; exact Bool.noConfusion hc
  · rw [Bool.not_eq_true] at he
    simp only [he, Bool.false_eq_true, if_false] at h
    split at h
    · exact Except.noConfusion h
    · split at h
      · exact Except.noConfusion h
      · rename_i body heq
        injection h with h
        injection h with h1 h2
        rw [h2] at h1
        subst h1
        have hbody := scanBody_mem _ _ _ heq
        have hded : nTok .dedent body = 0 :=
          nTok_eq_zero _ _ (fun x hx => ((isBodyTok_ne x (hbody x hx)).2.2.1))
        have hind : nTok .indent body = 0 :=
          nTok_eq_zero _ _ (fun x hx => ((isBodyTok_ne x (hbody x hx)).2.1))
        have hnl : nTok .newline body = 0 :=
          nTok_eq_zero _ _ (fun x hx => ((isBodyTok_ne x (hbody x hx)).1))
        have heo : nTok .eof body = 0 :=
          nTok_eq_zero _ _ (fun x hx => ((isBodyTok_ne x (hbody x hx)).2.2.2))
        obtain ⟨hic, hinl, hieo⟩ := indentToks_counts cur cur2
        refine ⟨?_, ?_, fun hc => (Bool.noConfusion (he ▸ hc)), fun _ => ⟨?_, ?_⟩⟩
        · simp only [nTok_append, hded, hind]
          simp [nTok]
          omega
        · simp [nTok_append, heo, hieo, nTok]
        · simp [nTok_append, hnl, hinl, nTok]
        · exact lastTok_concat _ _

theorem lexLines_inv : ∀ lines cur ts, lexLines lines cur = .ok ts →
    (nTok .dedent ts : Int) - nTok .indent ts = cur ∧ lastTok ts = some .eof := by
  intro lines
  induction lines with
  | nil =>
    intro cur ts h
    simp only [lexLines, Except.ok.injEq] at h
    subst h
    constructor
    · simp [nTok_append, nTok_replicate, nTok]
    · exact lastTok_concat _ _
  | cons line rest ih =>
    intro cur ts h
    simp only [lexLines] at h
    split at h
    · exact Except.noConfusion h
    · rename_i toks cur2 heq
      split at h
      · exact Except.noConfusion h
      · rename_i ts2 heq2
        injection h with h; subst h
        obtain ⟨hc, hlast⟩ := ih cur2 ts2 heq2
        obtain ⟨hcount, _, _, _⟩ := scanLine_struct line cur toks cur2 heq
        constructor
        · simp only [nTok_append]
          push_cast
          omega
        · have hne : ts2 ≠ [] := by
            intro hnil; rw [hnil] at hlast; exact Option.noConfusion hlast
          rw [lastTok_append toks ts2 hne]
          exact hlast

/-- Claim C4: for every input that tokenizes without a lexer error, the token
stream ends with Eof, the number of emitted Indent tokens equals the number of
emitted Dedent tokens (end-of-input flushes enough Dedents to restore level 0
before Eof), and every non-blank logical line contributes exactly one Newline
token, at the end of its emitted block. -/
theorem token_stream_shape :
    (∀ lines ts, tokenize lines = .ok ts →
        lastTok ts = some Tok.eof ∧ nTok Tok.indent ts = nTok Tok.dedent ts) ∧
    (∀ line cur toks cur2, isEmptyLine line = false →
        scanLine line cur = .ok (toks, cur2) →
        nTok Tok.newline toks = 1 ∧ lastTok toks = some Tok.newline) := by
  constructor
  · intro lines ts h
    obtain ⟨hc, hl⟩ := lexLines_inv lines 0 ts h
    refine ⟨hl, ?_⟩
    omega
  · intro line cur toks cur2 hne h
    obtain ⟨_, _, _, h4⟩ := scanLine_struct line cur toks cur2 h
    exact h4 hne

/-- Witness for token_stream_shape at the concrete input ["x = 1"]. -/
theorem token_stream_shape_witness :
    (lastTok [Tok.id "x", Tok.char '=', Tok.number 1, Tok.newline, Tok.eof] = some Tok.eof ∧
     nTok Tok.indent [Tok.id "x", Tok.char '=', Tok.number 1, Tok.newline, Tok.eof] =
       nTok Tok.dedent [Tok.id "x", Tok.char '=', Tok.number 1, Tok.newline, Tok.eof]) ∧
    (nTok Tok.newline [Tok.id "x", Tok.char '=', Tok.number 1, Tok.newline] = 1 ∧
     lastTok [Tok.id "x", Tok.char '=', Tok.number 1, Tok.newline] = some Tok.newline) :=
  ⟨token_stream_shape.1 ["x = 1"] _ (by decide),
   token_stream_shape.2 "x = 1" 0 _ 0 (by decide) (by decide)⟩

theorem lexLines_blank (b : String) (hb : isEmptyLine b = true) :
    ∀ pre post cur, lexLines (pre ++ b :: post) cur = lexLines (pre ++ post) cur := by
  intro pre
  induction pre with
  | nil =>
    intro post cur
    cases hl : lexLines post cur with
    | error e => simp [lexLines, scanLine, hb, hl]
    | ok ts => simp [lexLines, scanLine, hb, hl]
  | cons x xs ih =>
    intro post cur
    simp only [List.cons_append, lexLines]
    cases hs : scanLine x cur with
    | error e => simp only [hs]
    | ok p =>
      obtain ⟨toks, cur2⟩ := p
      simp only [hs, List.append_eq]
      rw [ih post cur2]

/-- Counterexample to claim C5 as stated: the line consisting of a single tab
character is whitespace-only, yet `IsEmptyLine` (which probes
find_first_not_of(' '), spaces only) does not skip it: at indent level 1 the
lexer runs ReadIndents back to level 0 — emitting a Dedent — and emits a
Newline; and the whitespace-only line of one space followed by a tab raises
the "Invalid indents" lexer error, its leading-space count 1 being odd. -/
theorem whitespace_line_cex :
    scanLine "\t" 1 = .ok ([Tok.dedent, Tok.newline], 0) ∧
    scanLine " \t" 0 = .error .invalidIndents ∧
    (∀ ch ∈ ("\t").toList, isSpaceCh ch = true) ∧
    (∀ ch ∈ (" \t").toList, isSpaceCh ch = true) ∧
    ([Tok.dedent, Tok.newline] ≠ ([] : List Tok)) := by
  refine ⟨by decide, by decide, by decide, by decide, by decide⟩

/-- Claim C5 (amended): a line that is empty, consists only of space
characters, or whose first non-space character is '#' (the cases
`Lexer::IsEmptyLine` recognizes — other whitespace such as a tab does not
count), produces no tokens at all (not even a Newline) and leaves the indent
level unchanged; consequently deleting such a line from the input leaves the
token stream identical. -/
theorem blank_line_no_tokens (b : String) (hb : isEmptyLine b = true) :
    (∀ cur, scanLine b cur = .ok ([], cur)) ∧
    (∀ pre post, tokenize (pre ++ b :: post) = tokenize (pre ++ post)) ∧
    (b.toList.dropWhile (· == ' ') = [] ∨
      ∃ rest2, b.toList.dropWhile (· == ' ') = '#' :: rest2) := by
  refine ⟨?_, ?_, ?_⟩
  · intro cur; simp [scanLine, hb]
  · intro pre post; exact lexLines_blank b hb pre post 0
  · unfold isEmptyLine at hb
    cases hd : b.toList.dropWhile (· == ' ') with
    | nil => exact Or.inl rfl
    | cons ch rest2 =>
      rw [hd] at hb
      have : ch = '#' := by
        have := hb
        simp at this
        exact this
      exact Or.inr ⟨rest2, by rw [this]⟩

/-- Witness for blank_line_no_tokens at a comment-only line. -/
theorem blank_line_no_tokens_witness :
    scanLine "  # note" 3 = .ok ([], 3) ∧
    tokenize ["x = 1", "  # note"] = tokenize ["x = 1"] :=
  ⟨(blank_line_no_tokens "  # note" (by decide)).1 3,
   (blank_line_no_tokens "  # note" (by decide)).2.1 ["x = 1"] []⟩

/-- Claim C10: a character in a line body that is not whitespace, not '#', not
a quote, not a digit, letter or underscore, and not in the recognized
delimiter, logic-operator or arithmetic-operator sets is silently skipped:
the body scan proceeds on the rest of the line, emitting no token and raising
no lexer error for it. -/
theorem unrecognized_char_skipped (c : Char) (rest : List Char) (fuel : Nat)
    (hh : (c == '#') = false) (hsp : isSpaceCh c = false)
    (hd : delimiterCh c = false) (ha : arithCh c = false)
    (hl : logicCh c = false) (hdg : c.isDigit = false)
    (hid : isIdentCh c = false) (hq : isQuoteCh c = false) :
    scanBody (fuel + 1) (c :: rest) = scanBody fuel rest := by
  simp [scanBody, hh, hsp, hd, ha, hl, hdg, hid, hq]

/-- Witness for unrecognized_char_skipped at the character '~'. -/
theorem unrecognized_char_skipped_witness :
    scanBody 3 ['~', '1'] = scanBody 2 ['1'] :=
  unrecognized_char_skipped '~' ['1'] 2 (by decide) (by decide) (by decide)
    (by decide) (by decide) (by decide) (by decide) (by decide)

end parse

namespace ast

theorem fGet_fSet (fs : List (String × Value)) (x : String) (v : Value) :
    fGet (fSet fs x v) x = some v := by
  induction fs with
  | nil => simp [fGet, fSet]
  | cons p rest ih =>
    obtain ⟨k, w⟩ := p
    by_cases hk : k = x
    · simp [fGet, fSet, hk]
    · simp [fGet, fSet, hk, ih]

/-- Claim C2: the return signal raised by `Return::Execute` carries the value
of its expression; `MethodBody::Execute` converts a surfacing signal into its
normal result, propagates a runtime error unchanged (the signal channel is the
distinct `ast::Exception` type, so an error is never caught and a signal is
never treated as an error), and a method body never lets a signal escape. -/
theorem return_methodBody (Γ : List ClassDef) (n : Nat) (b : Stmt) (c : Closure) (st : St) :
    (∀ e c2 st2 v, exec Γ n e c st = (c2, st2, .ok v) →
        exec Γ (n + 1) (.ret e) c st = (c2, st2, .signal v)) ∧
    (∀ c2 st2 v, exec Γ n (.compound [b]) c st = (c2, st2, .signal v) →
        exec Γ (n + 1) (.methodBody b) c st = (c2, st2, .ok v)) ∧
    (∀ c2 st2 m, exec Γ n (.compound [b]) c st = (c2, st2, .err m) →
        exec Γ (n + 1) (.methodBody b) c st = (c2, st2, .err m)) ∧
    (∀ c2 st2 v, exec Γ (n + 1) (.methodBody b) c st ≠ (c2, st2, .signal v)) := by
  refine ⟨?_, ?_, ?_, ?_⟩
  · intro e c2 st2 v h
    simp only [exec, h]
  · intro c2 st2 v h
    simp only [exec, h]
  · intro c2 st2 m h
    simp only [exec, h]
  · intro c2 st2 v heq
    simp only [exec] at heq
    rcases hr : exec Γ n (.compound [b]) c st with ⟨c3, st3, r3⟩
    rw [hr] at heq
    cases r3 <;> simp at heq

/-- Witness for return_methodBody: a concrete return through a method body. -/
theorem return_methodBody_witness :
    exec [] 4 (.methodBody (.ret (.lit (.num 7)))) [] ⟨[], ""⟩
      = ([], ⟨[], ""⟩, .ok (.num 7)) :=
  (return_methodBody [] 3 (.ret (.lit (.num 7))) [] ⟨[], ""⟩).2.1 [] ⟨[], ""⟩ (.num 7)
    (by decide)

theorem tdiv_range (a b : Int) (ha1 : -2147483648 ≤ a) (ha2 : a ≤ 2147483647)
    (hb : b ≠ 0) (hmin : ¬(a = -2147483648 ∧ b = -1)) :
    -2147483648 ≤ Int.tdiv a b ∧ Int.tdiv a b ≤ 2147483647 := by
  by_cases h1 : b = 1
  · subst h1; rw [Int.tdiv_one]; exact ⟨ha1, ha2⟩
  · by_cases h2 : b = -1
    · subst h2
      have hna : a ≠ -2147483648 := fun hc => hmin ⟨hc, rfl⟩
      have hneg : Int.tdiv a (-1) = -a := by
        have h := Int.tdiv_neg a 1
        rw [Int.tdiv_one] at h
        exact h
      rw [hneg]; omega
    · have hb2 : 2 ≤ b.natAbs := by omega
      have hq : (Int.tdiv a b).natAbs = a.natAbs / b.natAbs := Int.natAbs_tdiv a b
      have hle : a.natAbs / b.natAbs ≤ a.natAbs / 2 :=
        Nat.div_le_div_left hb2 (by norm_num)
      have hle2 : a.natAbs / 2 ≤ 2147483648 / 2 := Nat.div_le_div_right (by omega)
      have hfin : (Int.tdiv a b).natAbs ≤ 1073741824 := by
        rw [hq]; omega
      omega

/-- Counterexample to claim C6 as stated: at left operand -2^31 and right
operand -1 — both representable Numbers, with a nonzero divisor — the
truncated quotient 2^31 does not fit the 32-bit int of runtime::Number, so
the C++ signed division is undefined behaviour and no Number is returned. -/
theorem div_overflow_cex :
    exec [] 3 (.divStmt (.lit (.num (-2147483648))) (.lit (.num (-1)))) [] ⟨[], ""⟩
      = ([], ⟨[], ""⟩, .crash) ∧
    Res.crash ≠ Res.ok (.num (Int.tdiv (-2147483648) (-1))) := by
  refine ⟨by decide, by decide⟩

/-- Claim C6 (amended): with two Number operands inside the 32-bit int range,
`Div::Execute` raises the runtime error "Zero Division!" when the right
operand is zero; at the one unrepresentable-quotient point (left operand
-2^31, right operand -1) the C++ signed int division is undefined behaviour;
in every other case it returns the integer-truncated quotient. -/
theorem div_exec (Γ : List ClassDef) (n : Nat) (a b : Int) (c : Closure) (st : St)
    (ha1 : -2147483648 ≤ a) (ha2 : a ≤ 2147483647)
    (hb1 : -2147483648 ≤ b) (hb2 : b ≤ 2147483647) :
    exec Γ (n + 2) (.divStmt (.lit (.num a)) (.lit (.num b))) c st =
      (c, st,
        if b = 0 then .err "Zero Division!"
        else if a = -2147483648 ∧ b = -1 then .crash
        else .ok (.num (Int.tdiv a b))) := by
  simp only [exec]
  by_cases hb0 : b = 0
  · simp [hb0]
  · by_cases hmin : a = -2147483648 ∧ b = -1
    · obtain ⟨h1, h2⟩ := hmin
      subst h1; subst h2
      have ht : Int.tdiv (-2147483648) (-1) = 2147483648 := by decide
      have hg : (Int.tdiv (-2147483648 : Int) (-1) < -2147483648 ∨
          (2147483647 : Int) < Int.tdiv (-2147483648) (-1)) := by omega
      simp only [if_neg (show ¬((-1 : Int) = 0) by norm_num), if_pos hg]
      simp
    · obtain ⟨hl, hr⟩ := tdiv_range a b ha1 ha2 hb0 hmin
      have hg : ¬(Int.tdiv a b < -2147483648 ∨ 2147483647 < Int.tdiv a b) := by omega
      simp only [if_neg hb0, if_neg hmin, if_neg hg]

/-- Witness for div_exec: truncated division 7 / -2 = -3. -/
theorem div_exec_witness :
    exec [] 4 (.divStmt (.lit (.num 7)) (.lit (.num (-2)))) [] ⟨[], ""⟩
      = ([], ⟨[], ""⟩, .ok (.num (-3))) := by
  have h := div_exec [] 2 7 (-2) [] ⟨[], ""⟩ (by norm_num) (by norm_num)
    (by norm_num) (by norm_num)
  exact h.trans (by decide)

/-- Claim C8 (code-bug evidence): resolving a dotted path whose head is
unbound raises "unknown variable n0", and a missing field on a genuine
instance raises an error; but when an intermediate value is not a
ClassInstance, `TryAs` yields a null pointer and the source dereferences it —
undefined behaviour (`crash`), not the runtime error the claim states. -/
theorem varValue_nonInstance_crash :
    exec [] 2 (.varValue ["y"]) [("x", .num 5)] ⟨[], ""⟩
      = ([("x", .num 5)], ⟨[], ""⟩, .err "unknown variable y") ∧
    exec [] 2 (.varValue ["x", "g"]) [("x", .ref 0)] ⟨[⟨"C", [("f", .num 1)]⟩], ""⟩
      = ([("x", .ref 0)], ⟨[⟨"C", [("f", .num 1)]⟩], ""⟩, .err "map::at") ∧
    exec [] 2 (.varValue ["x", "f"]) [("x", .num 5)] ⟨[], ""⟩
      = ([("x", .num 5)], ⟨[], ""⟩, .crash) := by
  refine ⟨by decide, by decide, by decide⟩

/-- Claim C9: for every value v, the string produced by `Stringify::Execute`
on a literal holding v, followed by one newline, is exactly the text
`Print::Execute` writes for the one-argument list [v]; an empty value gives
String("None") and the printed text "None\n". -/
theorem stringify_print_agree (Γ : List ClassDef) (n : Nat) (v : Value) (c : Closure) (st : St) :
    ∃ s : String,
      exec Γ (n + 2) (.stringify (.lit v)) c st = (c, st, .ok (.str s)) ∧
      exec Γ (n + 2) (.printStmt [.lit v]) c st =
        (c, { st with out := st.out ++ (s ++ "\n") }, .ok Value.none) ∧
      (v = Value.none → s = "None") := by
  refine ⟨if v = Value.none then "None" else objRender v, ?_, ?_, ?_⟩
  · cases v <;> simp [exec]
  · cases v <;> simp [exec, execPrint, String.append_assoc]
  · intro hv; simp [hv]

end ast

namespace ast

/-- Counterexample to claim C1 as stated: with both the receiver variable x
and the argument variable y unbound, the source's `MethodCall::Execute` fails
with the argument's error "unknown variable y" (it runs the argument loop
first), while the order the claim states (receiver first, then arguments)
would fail with "unknown variable x". -/
theorem methodCall_order_cex :
    exec [] 3 (.methodCall (.varValue ["x"]) "m" [.varValue ["y"]]) [] ⟨[], ""⟩
      = ([], ⟨[], ""⟩, .err "unknown variable y") ∧
    methodCallSpecOrder [] 3 (.varValue ["x"]) "m" [.varValue ["y"]] [] ⟨[], ""⟩
      = ([], ⟨[], ""⟩, .err "unknown variable x") ∧
    ("unknown variable y" : String) ≠ "unknown variable x" := by
  refine ⟨by decide, by decide, by decide⟩

/-- Claim C1 (amended): `MethodCall::Execute` first evaluates each argument
left-to-right, and only then evaluates the receiver object expression; the
receiver must be a ClassInstance with a method of the given name and matching
arity, in which case the method is dispatched on a fresh closure binding self
and the formals; otherwise the runtime error "Bad Method call: <name>" is
raised.  An exception thrown by the argument loop propagates. -/
theorem methodCall_exec (Γ : List ClassDef) (n : Nat) (obj : Stmt) (m : String)
    (args : List Stmt) (c : Closure) (st : St) :
    (∀ c1 st1 r, execArgs (exec Γ n) args c st = (c1, st1, .error r) →
        exec Γ (n + 1) (.methodCall obj m args) c st = (c1, st1, r)) ∧
    (∀ c1 st1 vs c2 st2 v, execArgs (exec Γ n) args c st = (c1, st1, Except.ok vs) →
        exec Γ n obj c1 st1 = (c2, st2, .ok v) → (∀ a, v ≠ .ref a) →
        exec Γ (n + 1) (.methodCall obj m args) c st =
          (c2, st2, .err ("Bad Method call: " ++ m))) ∧
    (∀ c1 st1 vs c2 st2 a inst, execArgs (exec Γ n) args c st = (c1, st1, Except.ok vs) →
        exec Γ n obj c1 st1 = (c2, st2, .ok (.ref a)) → st2.heap[a]? = some inst →
        findMethod Γ inst.cls m vs.length = Option.none →
        exec Γ (n + 1) (.methodCall obj m args) c st =
          (c2, st2, .err ("Bad Method call: " ++ m))) ∧
    (∀ c1 st1 vs c2 st2 a inst meth, execArgs (exec Γ n) args c st = (c1, st1, Except.ok vs) →
        exec Γ n obj c1 st1 = (c2, st2, .ok (.ref a)) → st2.heap[a]? = some inst →
        findMethod Γ inst.cls m vs.length = some meth →
        exec Γ (n + 1) (.methodCall obj m args) c st =
          (c2, (exec Γ n meth.body (mkCallClosure a meth.formals vs) st2).2.1,
            (exec Γ n meth.body (mkCallClosure a meth.formals vs) st2).2.2)) := by
  refine ⟨?_, ?_, ?_, ?_⟩
  · intro c1 st1 r h
    simp only [exec, h]
  · intro c1 st1 vs c2 st2 v h1 h2 hv
    cases v with
    | ref a => exact absurd rfl (hv a)
    | none => simp only [exec, h1, h2]
    | num k => simp only [exec, h1, h2]
    | str s => simp only [exec, h1, h2]
    | bool b => simp only [exec, h1, h2]
  · intro c1 st1 vs c2 st2 a inst h1 h2 h3 h4
    simp only [exec, h1, h2, h3, h4]
  · intro c1 st1 vs c2 st2 a inst meth h1 h2 h3 h4
    simp only [exec, h1, h2, h3, h4]

/-- Witness for methodCall_exec: a successful dispatch of a one-parameter
method returning its parameter. -/
theorem methodCall_exec_witness :
    exec [⟨"C", [⟨"m", ["p"], .methodBody (.ret (.varValue ["p"]))⟩]⟩] 6
      (.methodCall (.varValue ["o"]) "m" [.lit (.num 3)]) [("o", .ref 0)] ⟨[⟨"C", []⟩], ""⟩
      = ([("o", .ref 0)], ⟨[⟨"C", []⟩], ""⟩, .ok (.num 3)) := by
  have h := (methodCall_exec [⟨"C", [⟨"m", ["p"], .methodBody (.ret (.varValue ["p"]))⟩]⟩] 5
      (.varValue ["o"]) "m" [.lit (.num 3)] [("o", .ref 0)] ⟨[⟨"C", []⟩], ""⟩).2.2.2
  exact (h [("o", .ref 0)] ⟨[⟨"C", []⟩], ""⟩ [.num 3] [("o", .ref 0)] ⟨[⟨"C", []⟩], ""⟩ 0
      ⟨"C", []⟩ ⟨"m", ["p"], .methodBody (.ret (.varValue ["p"]))⟩
      (by rfl) (by rfl) (by rfl) (by rfl)).trans (by rfl)

/-- Claim C3: `Compound::Execute` runs its statements in order; an IfElse or
MethodCall statement whose result is non-empty stops execution and is
propagated; the normal result of any other (non-Return) statement is
discarded and execution continues; the empty compound yields None; a Return
statement never produces a normal result (it always throws).  On the nested-if
method body of scenario 5 the method result is 8 for cond true and other
false, 7 for both true, and 9 for cond false. -/
theorem compound_semantics (Γ : List ClassDef) (n : Nat) :
    (∀ c st, exec Γ (n + 1) (.compound []) c st = (c, st, .ok .none)) ∧
    (∀ s rest c st c2 st2 v, (isIfElseS s || isMethodCallS s) = true →
        exec Γ n s c st = (c2, st2, .ok v) → v ≠ .none →
        exec Γ (n + 1) (.compound (s :: rest)) c st = (c2, st2, .ok v)) ∧
    (∀ s rest c st c2 st2, (isIfElseS s || isMethodCallS s) = true →
        exec Γ n s c st = (c2, st2, .ok .none) →
        exec Γ (n + 1) (.compound (s :: rest)) c st =
          exec Γ (n + 1) (.compound rest) c2 st2) ∧
    (∀ s rest c st c2 st2 v, isRetS s = false → (isIfElseS s || isMethodCallS s) = false →
        exec Γ n s c st = (c2, st2, .ok v) →
        exec Γ (n + 1) (.compound (s :: rest)) c st =
          exec Γ (n + 1) (.compound rest) c2 st2) ∧
    (∀ e c st v, (exec Γ (n + 1) (.ret e) c st).2.2 ≠ Res.ok v) ∧
    (∀ bc bo : Bool,
        exec [] 10 (.methodBody scen5) [("cond", .bool bc), ("other", .bool bo)] ⟨[], ""⟩ =
          ([("cond", .bool bc), ("other", .bool bo)], ⟨[], ""⟩,
            .ok (.num (if bc then (if bo then 7 else 8) else 9)))) := by
  refine ⟨?_, ?_, ?_, ?_, ?_, ?_⟩
  · intro c st
    simp [exec, execComp]
  · intro s rest c st c2 st2 v hs hv hne
    have hr : isRetS s = false := by
      cases s <;> simp_all [isRetS, isIfElseS, isMethodCallS]
    simp only [exec, execComp, hr, hs, hv, Bool.false_eq_true, if_false, if_true]
    simp [hne]
  · intro s rest c st c2 st2 hs hv
    have hr : isRetS s = false := by
      cases s <;> simp_all [isRetS, isIfElseS, isMethodCallS]
    simp only [exec, execComp, hr, hs, hv, Bool.false_eq_true, if_false, if_true]
  · intro s rest c st c2 st2 v hr hs hv
    simp only [exec, execComp, hr, hs, hv, Bool.false_eq_true, if_false]
  · intro e c st v
    rcases he : exec Γ n e c st with ⟨c3, st3, r3⟩
    simp only [exec, he]
    cases r3 <;> simp
  · intro bc bo
    cases bc <;> cases bo <;> decide

/-- Witness for compound_semantics: a non-empty IfElse result stops a
compound block and is propagated past a following statement. -/
theorem compound_semantics_witness :
    exec [] 3 (.compound [.ifElse (.lit (.bool true)) (some (.lit (.num 5))) Option.none,
        .ret (.lit (.num 1))]) [] ⟨[], ""⟩ = ([], ⟨[], ""⟩, .ok (.num 5)) :=
  (compound_semantics [] 2).2.1 (.ifElse (.lit (.bool true)) (some (.lit (.num 5))) Option.none)
    [.ret (.lit (.num 1))] [] ⟨[], ""⟩ [] ⟨[], ""⟩ (.num 5)
    (by decide) (by decide) (by decide)

/-- Witness for stringify_print_agree at the empty value. -/
theorem stringify_print_agree_witness :
    exec [] 5 (.stringify (.lit Value.none)) [] ⟨[], ""⟩ = ([], ⟨[], ""⟩, .ok (.str "None")) ∧
    exec [] 5 (.printStmt [.lit Value.none]) [] ⟨[], ""⟩ = ([], ⟨[], "None\n"⟩, .ok Value.none) := by
  obtain ⟨s, h1, h2, h3⟩ := stringify_print_agree [] 3 Value.none [] ⟨[], ""⟩
  rw [h3 rfl] at h1 h2
  exact ⟨h1, h2⟩

/-- Counterexample to claim C7 as stated: evaluating the right-hand side
raises "unknown variable z", yet the instance's field map has gained a new
entry ("f", None): `Fields()[field_name_]` default-created it before the
right-hand side was evaluated, so the map is not left unchanged. -/
theorem fieldAssign_rhs_error_cex :
    exec [] 3 (.fieldAssign ["x"] "f" (.varValue ["z"])) [("x", .ref 0)] ⟨[⟨"C", []⟩], ""⟩
      = ([("x", .ref 0)], ⟨[⟨"C", [("f", Value.none)]⟩], ""⟩, .err "unknown variable z") ∧
    ([("f", Value.none)] : List (String × Value)) ≠ [] := by
  refine ⟨by decide, by decide⟩

/-- Claim C7 (amended): `FieldAssignment::Execute` resolves the target path
to a class instance and takes `Fields()[field_name_]`, which default-creates
the field entry (bound to the empty value) when it is absent and leaves an
existing entry as it is; only then is the right-hand side evaluated, from
that updated state; on success the entry (created or pre-existing) is
overwritten with the resulting value, which is returned; if the right-hand
side raises, the raise propagates and the state the right-hand side left —
including a freshly default-created empty entry — remains. -/
theorem fieldAssign_exec (Γ : List ClassDef) (n : Nat) (path : List String)
    (f : String) (rv : Stmt) (c c1 : Closure) (st st1 : St) (a : Addr) (inst : Inst)
    (hpath : exec Γ n (.varValue path) c st = (c1, st1, .ok (.ref a)))
    (hinst : st1.heap[a]? = some inst) :
    (∀ c2 st3 w inst2,
        exec Γ n rv c1
            { st1 with heap :=
                st1.heap.set a (if (fGet inst.fields f).isSome then inst
                  else { inst with fields := inst.fields ++ [(f, Value.none)] }) }
          = (c2, st3, .ok w) →
        st3.heap[a]? = some inst2 →
        exec Γ (n + 1) (.fieldAssign path f rv) c st =
          (c2, { st3 with heap := st3.heap.set a { inst2 with fields := fSet inst2.fields f w } },
            .ok w) ∧
        fGet (fSet inst2.fields f w) f = some w) ∧
    (∀ c2 st3 r,
        exec Γ n rv c1
            { st1 with heap :=
                st1.heap.set a (if (fGet inst.fields f).isSome then inst
                  else { inst with fields := inst.fields ++ [(f, Value.none)] }) }
          = (c2, st3, r) →
        (∀ w, r ≠ .ok w) →
        exec Γ (n + 1) (.fieldAssign path f rv) c st = (c2, st3, r)) := by
  constructor
  · intro c2 st3 w inst2 hrv hinst2
    refine ⟨?_, fGet_fSet _ _ _⟩
    simp only [exec, hpath, hinst, hrv, hinst2]
  · intro c2 st3 r hrv hne
    cases r with
    | ok w => exact absurd rfl (hne w)
    | err m => simp only [exec, hpath, hinst, hrv]
    | signal v => simp only [exec, hpath, hinst, hrv]
    | crash => simp only [exec, hpath, hinst, hrv]
    | timeout => simp only [exec, hpath, hinst, hrv]

/-- Witness for fieldAssign_exec: a successful field assignment creating an
absent entry and storing 4, and one overwriting an existing entry with 9. -/
theorem fieldAssign_exec_witness :
    (exec [] 3 (.fieldAssign ["x"] "f" (.lit (.num 4))) [("x", .ref 0)] ⟨[⟨"C", []⟩], ""⟩
      = ([("x", .ref 0)], ⟨[⟨"C", [("f", .num 4)]⟩], ""⟩, .ok (.num 4))) ∧
    (exec [] 3 (.fieldAssign ["x"] "f" (.lit (.num 9))) [("x", .ref 0)]
        ⟨[⟨"C", [("f", .num 1)]⟩], ""⟩
      = ([("x", .ref 0)], ⟨[⟨"C", [("f", .num 9)]⟩], ""⟩, .ok (.num 9))) := by
  constructor
  · have h := (fieldAssign_exec [] 2 ["x"] "f" (.lit (.num 4)) [("x", .ref 0)] [("x", .ref 0)]
        ⟨[⟨"C", []⟩], ""⟩ ⟨[⟨"C", []⟩], ""⟩ 0 ⟨"C", []⟩ (by rfl) (by rfl)).1
    exact ((h [("x", .ref 0)] ⟨[⟨"C", [("f", Value.none)]⟩], ""⟩ (.num 4)
        ⟨"C", [("f", Value.none)]⟩ (by rfl) (by rfl)).1).trans (by rfl)
  · have h := (fieldAssign_exec [] 2 ["x"] "f" (.lit (.num 9)) [("x", .ref 0)] [("x", .ref 0)]
        ⟨[⟨"C", [("f", .num 1)]⟩], ""⟩ ⟨[⟨"C", [("f", .num 1)]⟩], ""⟩ 0 ⟨"C", [("f", .num 1)]⟩
        (by rfl) (by rfl)).1
    exact ((h [("x", .ref 0)] ⟨[⟨"C", [("f", .num 1)]⟩], ""⟩ (.num 9)
        ⟨"C", [("f", .num 1)]⟩ (by rfl) (by rfl)).1).trans (by rfl)

end ast
